import Mathlib

/-!
# Verification of the FaceLike demo server (session_05/index.js)

A shallow embedding of the repository's two server variants (the raw
`http.createServer` listener and the Express app) together with the
platform functions they rely on (`JSON.stringify` / `JSON.parse`,
Node's base64 `Buffer` codec, UTF-8, `String.prototype.split`).

Conventions of the embedding:
* JavaScript values flowing through `JSON.parse` are modelled by the
  inductive type `Json`; the JS value `undefined` is modelled by `Option`.
* Strings are Lean `String`s; byte buffers are `List Nat` with each
  entry below 256.
* The JSON-file database is modelled as `Option String` (`none` when
  `users.json` does not exist, `some content` otherwise).
* Thrown JS exceptions are modelled with `Except`; a `try { … } catch`
  is the corresponding `match` on the `Except` value.
* Route handlers are pure state transformers on the decoded user list;
  their observable output is a `Resp` (status code, `Location` header,
  `Set-Cookie` action).  HTML bodies are outside the modelled surface.
* JSON numbers are restricted to integer literals; the repository never
  serializes a number, so no claim depends on fractional forms.
-/

/-- A JSON value (JS value producible by `JSON.parse`). -/
inductive Json where
  | null
  | bool (b : Bool)
  | num (n : Int)
  | str (s : String)
  | arr (items : List Json)
  | obj (fields : List (String × Json))

/-- JS truthiness of a parsed JSON value: `null`, `false`, `0` and `""`
are falsy, everything else (including `[]` and `{}`) is truthy. -/
def jsFalsy : Json → Bool
  | .null => true
  | .bool b => !b
  | .num n => n == 0
  | .str s => s == ""
  | _ => false

/-- JS property access `v[key]` on a parsed JSON value: `none` models
`undefined`.  On an object a duplicate key takes the last value, as
`JSON.parse` in V8 does; on any non-object there is no own property. -/
def jsonField (j : Json) (key : String) : Option Json :=
  match j with
  | .obj fields => fields.foldl (fun acc kv => if kv.1 == key then some kv.2 else acc) none
  | _ => none

/-! ## `JSON.stringify`

`escSeq` is the escaping V8 applies inside string literals: `"` and `\`
get a backslash, the five short control escapes are used where they
exist, all other code points below U+0020 become `\u00xx` (lower-case
hex), and every other character is emitted verbatim. -/

/-- Lower-case hexadecimal digit for `n % 16`. -/
def hexChar (n : Nat) : Char :=
  if n % 16 < 10 then Char.ofNat (48 + n % 16) else Char.ofNat (87 + n % 16)

/-- JSON escaping of one character, as `JSON.stringify` performs it. -/
def escSeq (c : Char) : List Char :=
  if c = '"' then ['\\', '"']
  else if c = '\\' then ['\\', '\\']
  else if c.toNat = 8 then ['\\', 'b']
  else if c.toNat = 9 then ['\\', 't']
  else if c.toNat = 10 then ['\\', 'n']
  else if c.toNat = 12 then ['\\', 'f']
  else if c.toNat = 13 then ['\\', 'r']
  else if c.toNat < 32 then ['\\', 'u', '0', '0', hexChar (c.toNat / 16), hexChar c.toNat]
  else [c]

/-- A rendered JSON string literal, quotes included. -/
def strLit (s : String) : List Char :=
  '"' :: (s.data.flatMap escSeq ++ ['"'])

/-- Decimal digits of `n`, most significant first, onto `tail`;
`fuel` only bounds the digit count (structural recursion). -/
def natCharsAux : Nat → Nat → List Char → List Char
  | 0, _, tail => tail
  | fuel + 1, n, tail =>
      if n < 10 then Char.ofNat (48 + n) :: tail
      else natCharsAux fuel (n / 10) (Char.ofNat (48 + n % 10) :: tail)

/-- Decimal digits of `n`, most significant first, onto `tail`. -/
def natChars (n : Nat) (tail : List Char) : List Char :=
  natCharsAux (n + 1) n tail

/-- The characters `JSON.stringify` emits for an integer. -/
def intChars (i : Int) : List Char :=
  if i < 0 then '-' :: natChars i.natAbs [] else natChars i.natAbs []

mutual
/-- Compact `JSON.stringify(v)` (no `space` argument): no whitespace at all. -/
def jStringify : Json → List Char
  | .null => ("null").data
  | .bool true => ("true").data
  | .bool false => ("false").data
  | .num n => intChars n
  | .str s => strLit s
  | .arr items => '[' :: (jStringifyItems items ++ [']'])
  | .obj fields => '{' :: (jStringifyFields fields ++ ['}'])
def jStringifyItems : List Json → List Char
  | [] => []
  | [v] => jStringify v
  | v :: v2 :: rest => jStringify v ++ ',' :: jStringifyItems (v2 :: rest)
def jStringifyFields : List (String × Json) → List Char
  | [] => []
  | [(k, v)] => strLit k ++ ':' :: jStringify v
  | (k, v) :: kv2 :: rest => strLit k ++ ':' :: (jStringify v ++ ',' :: jStringifyFields (kv2 :: rest))
end

/-- The `depth * 2` spaces of indentation the indentation `JSON.stringify(v, null, 2)` puts
before an entry nested `depth` levels deep. -/
def pad (depth : Nat) : List Char :=
  List.replicate (depth * 2) ' '

mutual
/-- Pretty `JSON.stringify(v, null, 2)`: entries of arrays and objects
each sit on their own line, indented two spaces per nesting level, with
`": "` after object keys; scalars and empty containers print compactly. -/
def jStringify2 : Nat → Json → List Char
  | _, .null => ("null").data
  | _, .bool true => ("true").data
  | _, .bool false => ("false").data
  | _, .num n => intChars n
  | _, .str s => strLit s
  | _, .arr [] => ['[', ']']
  | depth, .arr (v :: rest) =>
      '[' :: '\n' :: (jStringify2Items depth (v :: rest) ++ '\n' :: (pad depth ++ [']']))
  | _, .obj [] => ['{', '}']
  | depth, .obj (kv :: rest) =>
      '{' :: '\n' :: (jStringify2Fields depth (kv :: rest) ++ '\n' :: (pad depth ++ ['}']))
def jStringify2Items : Nat → List Json → List Char
  | _, [] => []
  | depth, [v] => pad (depth + 1) ++ jStringify2 (depth + 1) v
  | depth, v :: v2 :: rest =>
      pad (depth + 1) ++ (jStringify2 (depth + 1) v ++ ',' :: '\n' :: jStringify2Items depth (v2 :: rest))
def jStringify2Fields : Nat → List (String × Json) → List Char
  | _, [] => []
  | depth, [(k, v)] => pad (depth + 1) ++ (strLit k ++ ':' :: ' ' :: jStringify2 (depth + 1) v)
  | depth, (k, v) :: kv2 :: rest =>
      pad (depth + 1) ++ (strLit k ++ ':' :: ' ' :: (jStringify2 (depth + 1) v ++ ',' :: '\n' :: jStringify2Fields depth (kv2 :: rest)))
end

/-! ## `JSON.parse`

A recursive-descent parser over the character list, total thanks to a
fuel argument; `jParse` supplies `input.length + 1` fuel, which dominates
any possible nesting, so the fuel never runs out on input the real
`JSON.parse` accepts. -/

/-- JSON insignificant whitespace. -/
def jsonWs (c : Char) : Bool :=
  c == ' ' || c == '\n' || c == '\r' || c == '\t'

/-- Drop leading insignificant whitespace. -/
def dropWs : List Char → List Char
  | c :: rest => if jsonWs c then dropWs rest else c :: rest
  | [] => []

/-- Numeric value of a hexadecimal digit. -/
def hexDigitVal (c : Char) : Option Nat :=
  if '0' ≤ c ∧ c ≤ '9' then some (c.toNat - 48)
  else if 'a' ≤ c ∧ c ≤ 'f' then some (c.toNat - 87)
  else if 'A' ≤ c ∧ c ≤ 'F' then some (c.toNat - 55)
  else none

/-- The character a short escape denotes, if the escape is legal. -/
def shortEsc : Char → Option Char
  | '"' => some '"'
  | '\\' => some '\\'
  | '/' => some '/'
  | 'b' => some (Char.ofNat 8)
  | 'f' => some (Char.ofNat 12)
  | 'n' => some '\n'
  | 'r' => some '\r'
  | 't' => some '\t'
  | _ => none

/-- Code point from four hex digits. -/
def hex4Val (a b c d : Char) : Option Nat := do
  let va ← hexDigitVal a
  let vb ← hexDigitVal b
  let vc ← hexDigitVal c
  let vd ← hexDigitVal d
  pure (va * 4096 + vb * 256 + vc * 16 + vd)

/-- Body of a JSON string literal, the opening quote already consumed.
A `\u` escape denoting a surrogate half degrades to U+FFFD (a JS string
can hold it, a Lean `Char` cannot; the model also does not recombine
surrogate pairs — no claim concerns such escapes, and `JSON.stringify`
never emits them).  A raw control character is a syntax error, as in
`JSON.parse`. -/
def strBody (acc : List Char) (cs : List Char) : Option (String × List Char) :=
  match cs with
  | [] => none
  | '"' :: rest => some (String.mk acc.reverse, rest)
  | '\\' :: 'u' :: a :: b :: c :: d :: rest =>
      match hex4Val a b c d with
      | none => none
      | some v =>
          if 55296 ≤ v ∧ v < 57344 then strBody (Char.ofNat 65533 :: acc) rest
          else strBody (Char.ofNat v :: acc) rest
  | '\\' :: e :: rest =>
      match shortEsc e with
      | some c => strBody (c :: acc) rest
      | none => none
  | c :: rest => if c.toNat < 32 then none else strBody (c :: acc) rest

/-- Leading run of decimal digits. -/
def digitSpan : List Char → List Char × List Char
  | c :: rest =>
      if '0' ≤ c ∧ c ≤ '9' then
        let (ds, r) := digitSpan rest
        (c :: ds, r)
      else ([], c :: rest)
  | [] => ([], [])

/-- Value of a digit run. -/
def digitsVal (ds : List Char) : Nat :=
  ds.foldl (fun acc c => acc * 10 + (c.toNat - 48)) 0

/-- A JSON number literal (integer form: optional minus, digits with no
needless leading zero; fractional and exponent forms are outside this
model, see the header note). -/
def numLit (input : List Char) : Option (Json × List Char) :=
  let (neg, afterSign) : Bool × List Char :=
    match input with
    | '-' :: r => (true, r)
    | _ => (false, input)
  match digitSpan afterSign with
  | ([], _) => none
  | (d :: ds, r) =>
      if d = '0' ∧ ds ≠ [] then none
      else
        let m : Int := (digitsVal (d :: ds) : Int)
        some (.num (if neg then -m else m), r)

mutual
/-- One JSON value, leading whitespace allowed. -/
def jValue : Nat → List Char → Option (Json × List Char)
  | 0, _ => none
  | fuel + 1, input =>
      match dropWs input with
      | 'n' :: 'u' :: 'l' :: 'l' :: r => some (.null, r)
      | 't' :: 'r' :: 'u' :: 'e' :: r => some (.bool true, r)
      | 'f' :: 'a' :: 'l' :: 's' :: 'e' :: r => some (.bool false, r)
      | '"' :: r =>
          match strBody [] r with
          | some (s, r2) => some (.str s, r2)
          | none => none
      | '[' :: r =>
          match dropWs r with
          | ']' :: r2 => some (.arr [], r2)
          | r2 => match jItems fuel r2 with
                  | some (vs, r3) => some (.arr vs, r3)
                  | none => none
      | '{' :: r =>
          match dropWs r with
          | '}' :: r2 => some (.obj [], r2)
          | r2 => match jFields fuel r2 with
                  | some (kvs, r3) => some (.obj kvs, r3)
                  | none => none
      | r => numLit r
/-- One or more comma-separated values, then the closing `]`. -/
def jItems : Nat → List Char → Option (List Json × List Char)
  | 0, _ => none
  | fuel + 1, input =>
      match jValue fuel input with
      | none => none
      | some (v, r) =>
          match dropWs r with
          | ',' :: r2 =>
              match jItems fuel r2 with
              | some (vs, r3) => some (v :: vs, r3)
              | none => none
          | ']' :: r2 => some ([v], r2)
          | _ => none
/-- One or more comma-separated `"key": value` members, then `}`. -/
def jFields : Nat → List Char → Option (List (String × Json) × List Char)
  | 0, _ => none
  | fuel + 1, input =>
      match dropWs input with
      | '"' :: r =>
          match strBody [] r with
          | none => none
          | some (k, r2) =>
              match dropWs r2 with
              | ':' :: r3 =>
                  match jValue fuel r3 with
                  | none => none
                  | some (v, r4) =>
                      match dropWs r4 with
                      | ',' :: r5 =>
                          match jFields fuel r5 with
                          | some (kvs, r6) => some ((k, v) :: kvs, r6)
                          | none => none
                      | '}' :: r5 => some ([(k, v)], r5)
                      | _ => none
              | _ => none
      | _ => none
end

/-- Model of `JSON.parse`: one value, possibly surrounded by whitespace, and
nothing after it; a `.error` is a thrown `SyntaxError`. -/
def jParse (s : String) : Except String Json :=
  match jValue (s.data.length + 1) s.data with
  | some (v, r) =>
      if dropWs r = [] then .ok v else .error ("Unexpected non-whitespace character")
  | none => .error ("Unexpected token in JSON")

/-! ## UTF-8 (`Buffer.from(string)` / `buffer.toString()`)

Node converts between JS strings and bytes with UTF-8.  `utf8Char` is
the standard encoding of one code point; `utf8Bytes` a whole string.
`utf8Chars` decodes, emitting U+FFFD for malformed sequences the way
`buffer.toString()` does (it never throws). -/

/-- UTF-8 bytes of one character. -/
def utf8Char (c : Char) : List Nat :=
  let v := c.toNat
  if v < 128 then [v]
  else if v < 2048 then [192 + v / 64, 128 + v % 64]
  else if v < 65536 then [224 + v / 4096, 128 + v / 64 % 64, 128 + v % 64]
  else [240 + v / 262144, 128 + v / 4096 % 64, 128 + v / 64 % 64, 128 + v % 64]

/-- UTF-8 bytes of a string. -/
def utf8Bytes (s : String) : List Nat :=
  s.data.flatMap utf8Char

/-- Is `b` a UTF-8 continuation byte? -/
def contByte (b : Nat) : Bool :=
  128 ≤ b ∧ b < 192

/-- Decode UTF-8, one code point per step; malformed input produces
U+FFFD and resynchronizes, as Node's lossy decoder does.  The fuel
argument only makes the recursion structural: one unit per emitted
character, so `length + 1` never runs out. -/
def utf8CharsAux : Nat → List Nat → List Char
  | 0, _ => []
  | fuel + 1, bs =>
    match bs with
    | [] => []
    | b :: rest =>
      if b < 128 then Char.ofNat b :: utf8CharsAux fuel rest
      else if b < 192 then Char.ofNat 65533 :: utf8CharsAux fuel rest
      else if b < 224 then
        match rest with
        | b1 :: rest2 =>
            if contByte b1 then
              (if (b - 192) * 64 + (b1 - 128) < 128 then Char.ofNat 65533
               else Char.ofNat ((b - 192) * 64 + (b1 - 128))) :: utf8CharsAux fuel rest2
            else Char.ofNat 65533 :: utf8CharsAux fuel (b1 :: rest2)
        | [] => [Char.ofNat 65533]
      else if b < 240 then
        match rest with
        | b1 :: b2 :: rest2 =>
            if contByte b1 ∧ contByte b2 then
              (if (b - 224) * 4096 + (b1 - 128) * 64 + (b2 - 128) < 2048
                  ∨ (55296 ≤ (b - 224) * 4096 + (b1 - 128) * 64 + (b2 - 128)
                     ∧ (b - 224) * 4096 + (b1 - 128) * 64 + (b2 - 128) < 57344)
               then Char.ofNat 65533
               else Char.ofNat ((b - 224) * 4096 + (b1 - 128) * 64 + (b2 - 128)))
                :: utf8CharsAux fuel rest2
            else Char.ofNat 65533 :: utf8CharsAux fuel (b1 :: b2 :: rest2)
        | _ => [Char.ofNat 65533]
      else if b < 248 then
        match rest with
        | b1 :: b2 :: b3 :: rest2 =>
            if contByte b1 ∧ contByte b2 ∧ contByte b3 then
              (if (b - 240) * 262144 + (b1 - 128) * 4096 + (b2 - 128) * 64 + (b3 - 128) < 65536
                  ∨ 1114112 ≤ (b - 240) * 262144 + (b1 - 128) * 4096 + (b2 - 128) * 64 + (b3 - 128)
               then Char.ofNat 65533
               else Char.ofNat ((b - 240) * 262144 + (b1 - 128) * 4096 + (b2 - 128) * 64 + (b3 - 128)))
                :: utf8CharsAux fuel rest2
            else Char.ofNat 65533 :: utf8CharsAux fuel (b1 :: b2 :: b3 :: rest2)
        | _ => [Char.ofNat 65533]
      else Char.ofNat 65533 :: utf8CharsAux fuel rest

/-- UTF-8 decoding of a byte list. -/
def utf8Chars (bs : List Nat) : List Char :=
  utf8CharsAux (bs.length + 1) bs

/-- Model of `buffer.toString()`. -/
def utf8Str (bs : List Nat) : String :=
  String.mk (utf8Chars bs)

/-! ## Base64 (`buffer.toString("base64")` / `Buffer.from(s, "base64")`)

Node's encoder is RFC 4648 with padding.  Its decoder is forgiving: any
character outside the alphabet (including `=` and whitespace) is
skipped, and a trailing group of 2 or 3 sextets still yields 1 or 2
bytes.  That decoder never throws. -/

/-- The base64 digit for a sextet. -/
def sextetChar (n : Nat) : Char :=
  if n < 26 then Char.ofNat (65 + n)
  else if n < 52 then Char.ofNat (97 + (n - 26))
  else if n < 62 then Char.ofNat (48 + (n - 52))
  else if n = 62 then '+'
  else '/'

/-- The sextet a base64 digit denotes, `none` off the alphabet. -/
def sextetVal (c : Char) : Option Nat :=
  if 'A' ≤ c ∧ c ≤ 'Z' then some (c.toNat - 65)
  else if 'a' ≤ c ∧ c ≤ 'z' then some (c.toNat - 97 + 26)
  else if '0' ≤ c ∧ c ≤ '9' then some (c.toNat - 48 + 52)
  else if c = '+' then some 62
  else if c = '/' then some 63
  else none

/-- Base64 digits (with `=` padding) of a byte list. -/
def b64Chars (bs : List Nat) : List Char :=
  match bs with
  | [] => []
  | [b0] => [sextetChar (b0 / 4), sextetChar (b0 % 4 * 16), '=', '=']
  | [b0, b1] => [sextetChar (b0 / 4), sextetChar (b0 % 4 * 16 + b1 / 16), sextetChar (b1 % 16 * 4), '=']
  | b0 :: b1 :: b2 :: rest =>
      sextetChar (b0 / 4) :: sextetChar (b0 % 4 * 16 + b1 / 16)
        :: sextetChar (b1 % 16 * 4 + b2 / 64) :: sextetChar (b2 % 64) :: b64Chars rest

/-- Model of `buffer.toString("base64")`. -/
def b64Encode (bs : List Nat) : String :=
  String.mk (b64Chars bs)

/-- Reassemble bytes from sextets, tolerating a short final group. -/
def bytesOfSextets (ss : List Nat) : List Nat :=
  match ss with
  | s0 :: s1 :: s2 :: s3 :: rest =>
      (s0 * 4 + s1 / 16) :: (s1 % 16 * 16 + s2 / 4) :: (s2 % 4 * 64 + s3) :: bytesOfSextets rest
  | [s0, s1, s2] => [s0 * 4 + s1 / 16, s1 % 16 * 16 + s2 / 4]
  | [s0, s1] => [s0 * 4 + s1 / 16]
  | _ => []

/-- Model of `Buffer.from(s, "base64")`: skip foreign characters, then group. -/
def b64Decode (cs : List Char) : List Nat :=
  bytesOfSextets (cs.filterMap sextetVal)

/-! ## `String.prototype.split(".")` -/

/-- JS `s.split(".")`: the (always nonempty) list of dot-free segments. -/
def splitDots (cs : List Char) : List (List Char) :=
  match cs with
  | [] => [[]]
  | c :: rest =>
      if c = '.' then [] :: splitDots rest
      else
        match splitDots rest with
        | seg :: segs => (c :: seg) :: segs
        | [] => [[c]]

/-! ## Shared data of the embedding

`UserRec` is one entry of `users.json` (`{ name, email, password }`).
`Resp` is the observable part of a handler's response: the status code,
the `Location` header if any, and what happened to the `access_token`
cookie.  HTML bodies are out of the modelled surface (spec §1).  The
raw variant writes `Set-Cookie: access_token=…; HttpOnly` /
`access_token=; Max-Age=0` by hand while Express goes through
`res.cookie` / `res.clearCookie`; both amount to setting or clearing
the `access_token` cookie, which is the level `CookieCmd` records. -/

/-- One persisted user record. -/
structure UserRec where
  name : String
  email : String
  password : String
deriving DecidableEq

/-- What a response does to the `access_token` cookie. -/
inductive CookieCmd where
  | set (token : String)
  | clear
deriving DecidableEq

/-- Observable response: status, redirect target, cookie effect. -/
structure Resp where
  status : Nat
  location : Option String
  cookie : Option CookieCmd
deriving DecidableEq

/-- HTTP method of a request (the server only distinguishes these two). -/
inductive Method where
  | get
  | post
deriving DecidableEq

/-- An inbound request: method, URL, the `access_token` cookie when the
header carries one, and the three form fields of the body (out-of-scope
body parsing always yields strings for submitted fields). -/
structure Req where
  method : Method
  url : String
  accessToken : Option String
  name : String
  email : String
  password : String
deriving DecidableEq

/-- The object one user record serializes to (fields in declaration
order, as V8 enumerates them). -/
def recJson (u : UserRec) : Json :=
  .obj [("name", .str u.name), ("email", .str u.email), ("password", .str u.password)]

/-- The JSON value `JSON.stringify` sees for a user array. -/
def usersToJson (users : List UserRec) : Json :=
  .arr (users.map recJson)

/-- Read a parsed `users.json` back as records, when it has that shape
(the model-level view of the dynamically typed array the code uses). -/
def userOfJson (j : Json) : Option UserRec :=
  match j with
  | .obj [("name", .str n), ("email", .str e), ("password", .str p)] => some ⟨n, e, p⟩
  | _ => none

/-- Decode a whole user array, when every entry has the record shape. -/
def usersFromJson (j : Json) : Option (List UserRec) :=
  match j with
  | .arr items => items.mapM userOfJson
  | _ => none

/-- JS `u.email === payload.sub`: true only when the payload is an
object whose (last) `sub` property is a string equal to `e`; a missing
property (`undefined`) or a non-string value compares unequal. -/
def subIs (payload : Json) (e : String) : Bool :=
  match jsonField payload ("sub") with
  | some (.str s) => e == s
  | _ => false

namespace HttpVariant

/-! Embedding of the raw `http.createServer` variant
(src/session_05/index.js lines 1–162). -/

/-- Embedding of `createToken(payload)` (lines 12–16): unsigned JWT-shaped string
`base64(header) + "." + base64(payload) + "."`. -/
def createToken (payload : Json) : String :=
  let header := b64Encode (utf8Bytes (String.mk (jStringify (.obj [("alg", .str ("none")), ("typ", .str ("JWT"))]))))
  let body := b64Encode (utf8Bytes (String.mk (jStringify payload)))
  header ++ "." ++ body ++ "."

/-- The `try`-block of `verifyToken` (lines 18–21): `.ok none` is the
explicit `return null` for a short split; `.ok (some j)` returns the
parsed payload; `.error` is an exception thrown inside the block. -/
def verifyTokenBody (token : String) : Except String (Option Json) :=
  let parts := splitDots token.data
  if parts.length < 2 then .ok none
  else
    match parts.get? 1 with
    | none => .error ("TypeError")
    | some seg =>
        match jParse (utf8Str (b64Decode seg)) with
        | .ok j => .ok (some j)
        | .error e => .error e

/-- Embedding of `verifyToken(token)` (lines 17–25): the `try/catch` — whatever the
body throws becomes `null`. -/
def verifyToken (token : String) : Option Json :=
  match verifyTokenBody token with
  | .ok r => r
  | .error _ => none

/-- Embedding of `readUsers()` (lines 28–31) over the modelled file system: an absent
`users.json` yields `[]`; otherwise the raw `JSON.parse` of its content,
whose exception (nothing catches it) is the `.error` case. -/
def readUsers (dbFile : Option String) : Except String Json :=
  match dbFile with
  | none => .ok (.arr [])
  | some content => jParse content

/-- Embedding of `saveUsers(users)` (lines 32–34): the file content written,
`JSON.stringify(users, null, 2)`. -/
def saveUsers (users : List UserRec) : String :=
  String.mk (jStringify2 0 (usersToJson users))

/-- Embedding of `POST /register` (lines 100–114), from the decoded store: reject a
duplicate email with a redirect back to the form, otherwise push the
record, persist, and set a fresh token cookie. -/
def registerPost (users : List UserRec) (name email password : String) :
    List UserRec × Resp :=
  if (users.find? fun u => u.email == email).isSome then
    (users, ⟨302, some ("/register"), none⟩)
  else
    let users2 := users ++ [⟨name, email, password⟩]
    (users2, ⟨302, some ("/profile"), some (.set (createToken (.obj [("sub", .str email)])))⟩)

/-- Embedding of `POST /login` (lines 115–128): find a record matching both fields,
redirect home on failure, otherwise issue a token cookie. -/
def loginPost (users : List UserRec) (email password : String) :
    List UserRec × Resp :=
  match users.find? fun u => u.email == email && u.password == password with
  | none => (users, ⟨302, some ("/"), none⟩)
  | some _ => (users, ⟨302, some ("/profile"), some (.set (createToken (.obj [("sub", .str email)])))⟩)

/-- Embedding of `POST /logout` (lines 129–132). -/
def logoutPost (users : List UserRec) : List UserRec × Resp :=
  (users, ⟨302, some ("/"), some .clear⟩)

/-- Embedding of `GET /profile` (lines 83–98): `token && verifyToken(token)` is falsy
for a missing cookie, an empty cookie value, a failed verify, or a falsy
payload; then the store lookup compares each email with `payload.sub`. -/
def profileGet (users : List UserRec) (cookie : Option String) :
    List UserRec × Resp :=
  match cookie with
  | none => (users, ⟨302, some ("/"), none⟩)
  | some token =>
      if token == "" then (users, ⟨302, some ("/"), none⟩)
      else
        match verifyToken token with
        | none => (users, ⟨302, some ("/"), none⟩)
        | some payload =>
            if jsFalsy payload then (users, ⟨302, some ("/"), none⟩)
            else
              match users.find? fun u => subIs payload u.email with
              | none => (users, ⟨302, some ("/"), none⟩)
              | some _ => (users, ⟨200, none, none⟩)

/-- The request dispatcher (lines 74–137), with the store passed in and
out in place of the `users.json` round trip each branch performs. -/
def handle (req : Req) (users : List UserRec) : List UserRec × Resp :=
  if req.method = .get ∧ req.url = "/" then (users, ⟨200, none, none⟩)
  else if req.method = .get ∧ req.url = "/register" then (users, ⟨200, none, none⟩)
  else if req.method = .get ∧ req.url = "/profile" then profileGet users req.accessToken
  else if req.method = .post ∧ req.url = "/register" then registerPost users req.name req.email req.password
  else if req.method = .post ∧ req.url = "/login" then loginPost users req.email req.password
  else if req.method = .post ∧ req.url = "/logout" then logoutPost users
  else (users, ⟨404, none, none⟩)

end HttpVariant

/-! ## The Express 4 default router

A string route such as `app.get("/profile", …)` is compiled by
path-to-regexp with Express's default options: `case sensitive routing`
off and `strict routing` off, giving a pattern like `^\/profile\/?$`
with the `i` flag, matched against the request pathname (the URL up to
the query string).  So a route matches exactly when the pathname,
compared case-insensitively, is the route itself or the route plus one
trailing slash.  (JS case-insensitive matching never folds a non-ASCII
character onto an ASCII one, so ASCII folding is exact for these ASCII
routes.)  The raw variant, by contrast, compares the full `req.url`
with `===`. -/

/-- The pathname of a request URL: everything before the first `?`. -/
def pathOf (url : String) : String :=
  String.mk (url.data.takeWhile fun c => c ≠ '?')

/-- ASCII case folding, as the regex `i` flag acts on ASCII letters. -/
def lowerAscii (s : String) : String :=
  String.mk (s.data.map Char.toLower)

/-- Express 4 default route matching: pathname only, case-insensitive,
optional trailing slash. -/
def expressMatch (route url : String) : Bool :=
  lowerAscii (pathOf url) == lowerAscii route
    || lowerAscii (pathOf url) == lowerAscii route ++ "/"

namespace ExpressVariant

/-! Embedding of the Express variant (the second source file behind the
document separator, lines 163–279): same helpers, with `res.redirect`
(status 302), `res.cookie("access_token", …, { httpOnly: true })` and
`res.clearCookie("access_token")` in place of hand-written headers, and
routes dispatched through the default router's lenient matching
(`expressMatch`) instead of the raw variant's `===` on `req.url`. -/

/-- Embedding of `createToken(payload)` (lines 185–189). -/
def createToken (payload : Json) : String :=
  let header := b64Encode (utf8Bytes (String.mk (jStringify (.obj [("alg", .str ("none")), ("typ", .str ("JWT"))]))))
  let body := b64Encode (utf8Bytes (String.mk (jStringify payload)))
  header ++ "." ++ body ++ "."

/-- The `try`-block of `verifyToken` (lines 191–194). -/
def verifyTokenBody (token : String) : Except String (Option Json) :=
  let parts := splitDots token.data
  if parts.length < 2 then .ok none
  else
    match parts.get? 1 with
    | none => .error ("TypeError")
    | some seg =>
        match jParse (utf8Str (b64Decode seg)) with
        | .ok j => .ok (some j)
        | .error e => .error e

/-- Embedding of `verifyToken(token)` (lines 190–198). -/
def verifyToken (token : String) : Option Json :=
  match verifyTokenBody token with
  | .ok r => r
  | .error _ => none

/-- Embedding of `readUsers()` (lines 176–179). -/
def readUsers (dbFile : Option String) : Except String Json :=
  match dbFile with
  | none => .ok (.arr [])
  | some content => jParse content

/-- Embedding of `saveUsers(users)` (lines 180–182). -/
def saveUsers (users : List UserRec) : String :=
  String.mk (jStringify2 0 (usersToJson users))

/-- Embedding of `app.post("/register", …)` (lines 252–261). -/
def registerPost (users : List UserRec) (name email password : String) :
    List UserRec × Resp :=
  if (users.find? fun u => u.email == email).isSome then
    (users, ⟨302, some ("/register"), none⟩)
  else
    let users2 := users ++ [⟨name, email, password⟩]
    (users2, ⟨302, some ("/profile"), some (.set (createToken (.obj [("sub", .str email)])))⟩)

/-- Embedding of `app.post("/login", …)` (lines 263–271). -/
def loginPost (users : List UserRec) (email password : String) :
    List UserRec × Resp :=
  match users.find? fun u => u.email == email && u.password == password with
  | none => (users, ⟨302, some ("/"), none⟩)
  | some _ => (users, ⟨302, some ("/profile"), some (.set (createToken (.obj [("sub", .str email)])))⟩)

/-- Embedding of `app.post("/logout", …)` (lines 273–276). -/
def logoutPost (users : List UserRec) : List UserRec × Resp :=
  (users, ⟨302, some ("/"), some .clear⟩)

/-- Embedding of `app.get("/profile", …)` (lines 242–250). -/
def profileGet (users : List UserRec) (cookie : Option String) :
    List UserRec × Resp :=
  match cookie with
  | none => (users, ⟨302, some ("/"), none⟩)
  | some token =>
      if token == "" then (users, ⟨302, some ("/"), none⟩)
      else
        match verifyToken token with
        | none => (users, ⟨302, some ("/"), none⟩)
        | some payload =>
            if jsFalsy payload then (users, ⟨302, some ("/"), none⟩)
            else
              match users.find? fun u => subIs payload u.email with
              | none => (users, ⟨302, some ("/"), none⟩)
              | some _ => (users, ⟨200, none, none⟩)

/-- Express route dispatch (lines 238–276 plus the framework's default
404), in registration order, each route matched by the default router's
lenient rule. -/
def handle (req : Req) (users : List UserRec) : List UserRec × Resp :=
  if req.method = .get ∧ expressMatch ("/") req.url then (users, ⟨200, none, none⟩)
  else if req.method = .get ∧ expressMatch ("/register") req.url then (users, ⟨200, none, none⟩)
  else if req.method = .get ∧ expressMatch ("/profile") req.url then profileGet users req.accessToken
  else if req.method = .post ∧ expressMatch ("/register") req.url then registerPost users req.name req.email req.password
  else if req.method = .post ∧ expressMatch ("/login") req.url then loginPost users req.email req.password
  else if req.method = .post ∧ expressMatch ("/logout") req.url then logoutPost users
  else (users, ⟨404, none, none⟩)

end ExpressVariant

/-! ## Operation sequences and the store invariant -/

/-- The store after one request is handled (raw variant). -/
def stepStore (users : List UserRec) (req : Req) : List UserRec :=
  (HttpVariant.handle req users).1

/-- The store after a whole request sequence. -/
def runStore (users : List UserRec) (reqs : List Req) : List UserRec :=
  reqs.foldl stepStore users

/-- The invariant "at most one record per email key" (the code's key
policy: exact string equality). -/
def EmailsUnique (users : List UserRec) : Prop :=
  (users.map UserRec.email).Nodup

/-- Modelled from the spec: the spec leaves email normalization
unspecified in the source and recommends that an implementer "trim and
lowercase before using as key" (§9, echoed by §3); this is that
recommended normalization, used to test the claim that speaks about
"normalized email". -/
def normalizeEmail (s : String) : String :=
  String.mk ((((s.data.dropWhile fun c => c.toNat ≤ 32).reverse.dropWhile
    fun c => c.toNat ≤ 32).reverse).map Char.toLower)

/-! ## Derived definitions used by the statements -/

/-- The session claim both variants issue: `{ sub: email }`. -/
def claimJson (email : String) : Json :=
  .obj [("sub", .str email)]

/-- The constant header object `{ alg: "none", typ: "JWT" }`. -/
def headerJson : Json :=
  .obj [("alg", .str ("none")), ("typ", .str ("JWT"))]

/-- The base64 segment encoding a JSON value, as `createToken` builds it. -/
def tokenSeg (p : Json) : List Char :=
  b64Chars (utf8Bytes (String.mk (jStringify p)))

/-- The header segment shared by every issued token. -/
def headerSeg : List Char :=
  tokenSeg headerJson

/-! ## Proof layer: characters -/

/-- Applying `Char.ofNat` at a valid code point carries that code point. -/
theorem toNat_charOfNat {n : Nat} (hv : Nat.isValidChar n) : (Char.ofNat n).toNat = n := by
  simp [Char.ofNat, hv, Char.toNat, Char.ofNatAux]
  rfl

/-- Every `Char`'s code point is valid (surrogates and overflow excluded). -/
theorem charToNat_valid (c : Char) : c.toNat < 55296 ∨ (57343 < c.toNat ∧ c.toNat < 1114112) := by
  have h := c.valid
  exact h

/-! ## Proof layer: UTF-8 round trip -/

/-- UTF-8 encoding emits bytes. -/
theorem utf8Char_lt256 (c : Char) : ∀ b ∈ utf8Char c, b < 256 := by
  have hv := charToNat_valid c
  intro b hb
  simp only [utf8Char] at hb
  by_cases h1 : c.toNat < 128
  · rw [if_pos h1] at hb
    simp only [List.mem_singleton] at hb
    omega
  · rw [if_neg h1] at hb
    by_cases h2 : c.toNat < 2048
    · rw [if_pos h2] at hb
      simp only [List.mem_cons, List.mem_singleton, List.not_mem_nil, or_false] at hb
      rcases hb with rfl | rfl <;> omega
    · rw [if_neg h2] at hb
      by_cases h3 : c.toNat < 65536
      · rw [if_pos h3] at hb
        simp only [List.mem_cons, List.mem_singleton, List.not_mem_nil, or_false] at hb
        rcases hb with rfl | rfl | rfl <;> omega
      · rw [if_neg h3] at hb
        simp only [List.mem_cons, List.mem_singleton, List.not_mem_nil, or_false] at hb
        rcases hb with rfl | rfl | rfl | rfl <;> omega

/-- Decoding picks the one character encoding put down, then carries on. -/
theorem utf8CharsAux_encChar (c : Char) (fuel : Nat) (rest : List Nat) :
    utf8CharsAux (fuel + 1) (utf8Char c ++ rest) = c :: utf8CharsAux fuel rest := by
  have hv := charToNat_valid c
  have hback := Char.ofNat_toNat c
  simp only [utf8Char]
  by_cases h1 : c.toNat < 128
  · rw [if_pos h1]
    rw [List.cons_append, List.nil_append, utf8CharsAux.eq_def]
    dsimp only
    rw [if_pos h1, hback]
  · rw [if_neg h1]
    by_cases h2 : c.toNat < 2048
    · rw [if_pos h2]
      simp only [List.cons_append, List.nil_append]
      rw [utf8CharsAux.eq_def]
      dsimp only
      rw [if_neg (by omega), if_neg (by omega), if_pos (by omega)]
      have hc : contByte (128 + c.toNat % 64) = true := by simp [contByte]; omega
      rw [if_pos hc]
      have hval : (192 + c.toNat / 64 - 192) * 64 + (128 + c.toNat % 64 - 128) = c.toNat := by
        omega
      rw [hval, if_neg (by omega), hback]
    · rw [if_neg h2]
      by_cases h3 : c.toNat < 65536
      · rw [if_pos h3]
        simp only [List.cons_append, List.nil_append]
        rw [utf8CharsAux.eq_def]
        dsimp only
        rw [if_neg (by omega), if_neg (by omega), if_neg (by omega), if_pos (by omega)]
        have hc : (contByte (128 + c.toNat / 64 % 64) ∧ contByte (128 + c.toNat % 64)) := by
          constructor <;> (simp [contByte]; omega)
        rw [if_pos hc]
        have hval : (224 + c.toNat / 4096 - 224) * 4096 + (128 + c.toNat / 64 % 64 - 128) * 64
            + (128 + c.toNat % 64 - 128) = c.toNat := by omega
        rw [hval, if_neg (by omega), hback]
      · rw [if_neg h3]
        simp only [List.cons_append, List.nil_append]
        rw [utf8CharsAux.eq_def]
        dsimp only
        rw [if_neg (by omega), if_neg (by omega), if_neg (by omega), if_neg (by omega),
          if_pos (by omega)]
        have hc : (contByte (128 + c.toNat / 4096 % 64) ∧ contByte (128 + c.toNat / 64 % 64)
            ∧ contByte (128 + c.toNat % 64)) := by
          refine ⟨?_, ?_, ?_⟩ <;> (simp [contByte]; omega)
        rw [if_pos hc]
        have hval : (240 + c.toNat / 262144 - 240) * 262144 + (128 + c.toNat / 4096 % 64 - 128) * 4096
            + (128 + c.toNat / 64 % 64 - 128) * 64 + (128 + c.toNat % 64 - 128) = c.toNat := by
          omega
        rw [hval, if_neg (by omega), hback]

/-- Decoding a whole encoded character run, with a left-over tail. -/
theorem utf8CharsAux_encList (cs : List Char) (fuel : Nat) (rest : List Nat) :
    utf8CharsAux (cs.length + fuel) (cs.flatMap utf8Char ++ rest) = cs ++ utf8CharsAux fuel rest := by
  induction cs with
  | nil => simp
  | cons c cs ih =>
      rw [List.flatMap_cons, List.append_assoc]
      rw [show (c :: cs).length + fuel = (cs.length + fuel) + 1 by simp [List.length_cons]; omega]
      rw [utf8CharsAux_encChar, ih]
      rfl

/-- Out of input, decoding stops whatever fuel is left. -/
theorem utf8CharsAux_nil (fuel : Nat) : utf8CharsAux fuel [] = [] := by
  cases fuel <;> rfl

/-- Each character encodes to at least one byte. -/
theorem utf8Char_len_pos (c : Char) : 1 ≤ (utf8Char c).length := by
  simp only [utf8Char]
  split <;> (try split) <;> (try split) <;> simp

/-- A string never encodes to fewer bytes than characters. -/
theorem utf8Bytes_len (s : String) : s.data.length ≤ (utf8Bytes s).length := by
  rw [utf8Bytes]
  induction s.data with
  | nil => simp
  | cons c cs ih =>
      rw [List.flatMap_cons, List.length_append]
      have := utf8Char_len_pos c
      simp only [List.length_cons]
      omega

/-- The UTF-8 round trip on strings. -/
theorem utf8Str_utf8Bytes (s : String) : utf8Str (utf8Bytes s) = s := by
  have hlen := utf8Bytes_len s
  have hsplit : (utf8Bytes s).length + 1 = s.data.length + ((utf8Bytes s).length + 1 - s.data.length) := by
    omega
  have h := utf8CharsAux_encList s.data ((utf8Bytes s).length + 1 - s.data.length) []
  rw [List.append_nil, utf8CharsAux_nil, List.append_nil] at h
  rw [utf8Str, utf8Chars, utf8Bytes] at *
  rw [hsplit, h]

/-! ## Proof layer: base64 round trip -/

/-- The base64 digit of a sextet decodes back to it. -/
theorem sextetVal_sextetChar : ∀ n < 64, sextetVal (sextetChar n) = some n := by decide

/-- No base64 digit is a dot. -/
theorem sextetChar_ne_dot : ∀ n < 64, sextetChar n ≠ '.' := by decide

/-- Padding decodes to nothing. -/
theorem sextetVal_eq : sextetVal '=' = none := by decide

/-- The base64 round trip: Node's forgiving decoder undoes the encoder
on any byte list. -/
theorem b64Decode_b64Chars : ∀ (bs : List Nat), (∀ b ∈ bs, b < 256) →
    bytesOfSextets ((b64Chars bs).filterMap sextetVal) = bs
  | [], _ => rfl
  | [b0], h => by
      have hb0 : b0 < 256 := h b0 (by simp)
      rw [b64Chars]
      simp only [List.filterMap_cons, sextetVal_sextetChar _ (by omega : b0 / 4 < 64),
        sextetVal_sextetChar _ (by omega : b0 % 4 * 16 < 64), sextetVal_eq,
        List.filterMap_nil]
      rw [bytesOfSextets]
      simp only [List.cons.injEq, and_true]
      omega
  | [b0, b1], h => by
      have hb0 : b0 < 256 := h b0 (by simp)
      have hb1 : b1 < 256 := h b1 (by simp)
      rw [b64Chars]
      simp only [List.filterMap_cons, sextetVal_sextetChar _ (by omega : b0 / 4 < 64),
        sextetVal_sextetChar _ (by omega : b0 % 4 * 16 + b1 / 16 < 64),
        sextetVal_sextetChar _ (by omega : b1 % 16 * 4 < 64), sextetVal_eq,
        List.filterMap_nil]
      rw [bytesOfSextets]
      simp only [List.cons.injEq, and_true]
      omega
  | b0 :: b1 :: b2 :: rest, h => by
      have hb0 : b0 < 256 := h b0 (by simp)
      have hb1 : b1 < 256 := h b1 (by simp)
      have hb2 : b2 < 256 := h b2 (by simp)
      have ih := b64Decode_b64Chars rest (fun b hb => h b (by simp [hb]))
      rw [show b64Chars (b0 :: b1 :: b2 :: rest)
          = sextetChar (b0 / 4) :: sextetChar (b0 % 4 * 16 + b1 / 16)
            :: sextetChar (b1 % 16 * 4 + b2 / 64) :: sextetChar (b2 % 64) :: b64Chars rest
        from by rw [b64Chars]]
      simp only [List.filterMap_cons, sextetVal_sextetChar _ (by omega : b0 / 4 < 64),
        sextetVal_sextetChar _ (by omega : b0 % 4 * 16 + b1 / 16 < 64),
        sextetVal_sextetChar _ (by omega : b1 % 16 * 4 + b2 / 64 < 64),
        sextetVal_sextetChar _ (by omega : b2 % 64 < 64)]
      rw [bytesOfSextets]
      simp only [List.cons.injEq]
      refine ⟨by omega, by omega, by omega, ih⟩

/-- Encoded output never contains a dot, so a token's segments survive
the `split(".")`. -/
theorem b64Chars_no_dot : ∀ (bs : List Nat), (∀ b ∈ bs, b < 256) →
    ('.' : Char) ∉ b64Chars bs
  | [], _ => by simp [b64Chars]
  | [b0], h => by
      have hb0 : b0 < 256 := h b0 (by simp)
      rw [b64Chars]
      simp only [List.mem_cons, List.not_mem_nil, or_false]
      push_neg
      refine ⟨?_, ?_, by decide, by decide⟩
      · exact fun he => sextetChar_ne_dot _ (by omega) he.symm
      · exact fun he => sextetChar_ne_dot _ (by omega) he.symm
  | [b0, b1], h => by
      have hb0 : b0 < 256 := h b0 (by simp)
      have hb1 : b1 < 256 := h b1 (by simp)
      rw [b64Chars]
      simp only [List.mem_cons, List.not_mem_nil, or_false]
      push_neg
      refine ⟨?_, ?_, ?_, by decide⟩
      · exact fun he => sextetChar_ne_dot _ (by omega) he.symm
      · exact fun he => sextetChar_ne_dot _ (by omega) he.symm
      · exact fun he => sextetChar_ne_dot _ (by omega) he.symm
  | b0 :: b1 :: b2 :: rest, h => by
      have hb0 : b0 < 256 := h b0 (by simp)
      have hb1 : b1 < 256 := h b1 (by simp)
      have hb2 : b2 < 256 := h b2 (by simp)
      have ih := b64Chars_no_dot rest (fun b hb => h b (by simp [hb]))
      rw [show b64Chars (b0 :: b1 :: b2 :: rest)
          = sextetChar (b0 / 4) :: sextetChar (b0 % 4 * 16 + b1 / 16)
            :: sextetChar (b1 % 16 * 4 + b2 / 64) :: sextetChar (b2 % 64) :: b64Chars rest
        from by rw [b64Chars]]
      simp only [List.mem_cons]
      push_neg
      refine ⟨?_, ?_, ?_, ?_, ih⟩
      · exact fun he => sextetChar_ne_dot _ (by omega) he.symm
      · exact fun he => sextetChar_ne_dot _ (by omega) he.symm
      · exact fun he => sextetChar_ne_dot _ (by omega) he.symm
      · exact fun he => sextetChar_ne_dot _ (by omega) he.symm

/-- The full byte-level round trip behind a token segment. -/
theorem b64Decode_b64Encode (bs : List Nat) (h : ∀ b ∈ bs, b < 256) :
    b64Decode (b64Encode bs).data = bs := by
  rw [b64Decode, b64Encode]
  exact b64Decode_b64Chars bs h

/-- All bytes of an encoded string are bytes. -/
theorem utf8Bytes_lt256 (s : String) : ∀ b ∈ utf8Bytes s, b < 256 := by
  intro b hb
  rw [utf8Bytes, List.mem_flatMap] at hb
  obtain ⟨c, _, hc⟩ := hb
  exact utf8Char_lt256 c b hc

/-- The string-level round trip used by `verifyToken` on an issued
segment: decode what the encoder produced, back to the source text. -/
theorem utf8Str_b64_utf8 (s : String) :
    utf8Str (b64Decode (b64Encode (utf8Bytes s)).data) = s := by
  rw [b64Decode_b64Encode _ (utf8Bytes_lt256 s)]
  exact utf8Str_utf8Bytes s

/-! ## Proof layer: JSON string literals -/

/-- The `\u00xx` escape of a control character parses back to its code. -/
theorem hex4Val_control : ∀ n < 32, hex4Val '0' '0' (hexChar (n / 16)) (hexChar n) = some n := by
  decide

/-- One escaped character parses back to the character. -/
theorem strBody_escSeq (c : Char) (acc rest : List Char) :
    strBody acc (escSeq c ++ rest) = strBody (c :: acc) rest := by
  by_cases hq : c = '"'
  · subst hq
    rw [show escSeq '"' = ['\\', '"'] from rfl]
    rfl
  · by_cases hb : c = '\\'
    · subst hb
      rw [show escSeq '\\' = ['\\', '\\'] from rfl]
      rfl
    · rw [escSeq, if_neg hq, if_neg hb]
      by_cases h8 : c.toNat = 8
      · rw [if_pos h8, show c = Char.ofNat 8 from by rw [← Char.ofNat_toNat c, h8]]
        rfl
      · rw [if_neg h8]
        by_cases h9 : c.toNat = 9
        · rw [if_pos h9, show c = Char.ofNat 9 from by rw [← Char.ofNat_toNat c, h9]]
          rfl
        · rw [if_neg h9]
          by_cases h10 : c.toNat = 10
          · rw [if_pos h10, show c = Char.ofNat 10 from by rw [← Char.ofNat_toNat c, h10]]
            rfl
          · rw [if_neg h10]
            by_cases h12 : c.toNat = 12
            · rw [if_pos h12, show c = Char.ofNat 12 from by rw [← Char.ofNat_toNat c, h12]]
              rfl
            · rw [if_neg h12]
              by_cases h13 : c.toNat = 13
              · rw [if_pos h13, show c = Char.ofNat 13 from by rw [← Char.ofNat_toNat c, h13]]
                rfl
              · rw [if_neg h13]
                by_cases h32 : c.toNat < 32
                · rw [if_pos h32]
                  simp only [List.cons_append, List.nil_append]
                  rw [show strBody acc ('\\' :: 'u' :: '0' :: '0' :: hexChar (c.toNat / 16) :: hexChar c.toNat :: rest)
                      = (match hex4Val '0' '0' (hexChar (c.toNat / 16)) (hexChar c.toNat) with
                        | none => none
                        | some v => if 55296 ≤ v ∧ v < 57344 then strBody (Char.ofNat 65533 :: acc) rest
                                    else strBody (Char.ofNat v :: acc) rest) from rfl]
                  rw [hex4Val_control c.toNat h32]
                  simp only
                  rw [if_neg (by omega), Char.ofNat_toNat]
                · rw [if_neg h32]
                  simp only [List.cons_append, List.nil_append]
                  rw [strBody.eq_def]
                  simp [hq, hb, h32]

/-- A whole escaped run parses back, stopping at the closing quote. -/
theorem strBody_escRun : ∀ (cs acc rest : List Char),
    strBody acc (cs.flatMap escSeq ++ '"' :: rest) = some (String.mk (acc.reverse ++ cs), rest)
  | [], acc, rest => by simp [strBody]
  | c :: cs, acc, rest => by
      rw [List.flatMap_cons, List.append_assoc, strBody_escSeq, strBody_escRun cs (c :: acc) rest]
      simp

/-- The string-literal codec round trip. -/
theorem strBody_strLit (s : String) (rest : List Char) :
    strBody [] (s.data.flatMap escSeq ++ '"' :: rest) = some (s, rest) := by
  rw [strBody_escRun]
  rfl

/-! ## Proof layer: parsing a compact-rendered claim object -/

/-- The parser recovers a rendered `{ sub: … }` object (any left-over
input untouched), with three units of fuel to spare for the nesting. -/
theorem jValue_claim (e : String) (f : Nat) (rest : List Char) :
    jValue (f + 3) (jStringify (claimJson e) ++ rest) = some (claimJson e, rest) := by
  have hs1 : escSeq 's' = ['s'] := rfl
  have hs2 : escSeq 'u' = ['u'] := rfl
  have hs3 : escSeq 'b' = ['b'] := rfl
  have hrender : jStringify (claimJson e) ++ rest
      = '{' :: '"' :: 's' :: 'u' :: 'b' :: '"' :: ':' :: '"'
          :: (e.data.flatMap escSeq ++ '"' :: '}' :: rest) := by
    simp [claimJson, jStringify, jStringifyFields, strLit, List.append_assoc, hs1, hs2, hs3]
  rw [hrender]
  have s1 : jValue (f + 3) ('{' :: '"' :: 's' :: 'u' :: 'b' :: '"' :: ':' :: '"'
          :: (e.data.flatMap escSeq ++ '"' :: '}' :: rest))
      = (match jFields (f + 2) ('"' :: 's' :: 'u' :: 'b' :: '"' :: ':' :: '"'
          :: (e.data.flatMap escSeq ++ '"' :: '}' :: rest)) with
        | some (kvs, r3) => some (Json.obj kvs, r3)
        | none => none) := rfl
  have s2 : jFields (f + 2) ('"' :: 's' :: 'u' :: 'b' :: '"' :: ':' :: '"'
          :: (e.data.flatMap escSeq ++ '"' :: '}' :: rest))
      = (match jValue (f + 1) ('"' :: (e.data.flatMap escSeq ++ '"' :: '}' :: rest)) with
        | none => none
        | some (v, r4) =>
            match dropWs r4 with
            | ',' :: r5 =>
                match jFields (f + 1) r5 with
                | some (kvs, r6) => some (("sub", v) :: kvs, r6)
                | none => none
            | '}' :: r5 => some ([("sub", v)], r5)
            | _ => none) := rfl
  have s3 : jValue (f + 1) ('"' :: (e.data.flatMap escSeq ++ '"' :: '}' :: rest))
      = some (.str e, '}' :: rest) := by
    have h0 : jValue (f + 1) ('"' :: (e.data.flatMap escSeq ++ '"' :: '}' :: rest))
        = (match strBody [] (e.data.flatMap escSeq ++ '"' :: '}' :: rest) with
          | some (s, r2) => some (Json.str s, r2)
          | none => none) := rfl
    rw [h0, strBody_strLit]
  rw [s1, s2, s3]
  rfl

/-- The parser `JSON.parse` inverts the compact `JSON.stringify` of a claim. -/
theorem jParse_claim (e : String) :
    jParse (String.mk (jStringify (claimJson e))) = .ok (claimJson e) := by
  rw [jParse]
  have hdata : (String.mk (jStringify (claimJson e))).data = jStringify (claimJson e) := rfl
  rw [hdata]
  have hlen : 2 ≤ (jStringify (claimJson e)).length := by
    simp [claimJson, jStringify, jStringifyFields, strLit]
  have hf : (jStringify (claimJson e)).length + 1 = ((jStringify (claimJson e)).length - 2) + 3 := by
    omega
  rw [hf]
  have h := jValue_claim e ((jStringify (claimJson e)).length - 2) []
  rw [List.append_nil] at h
  rw [h]
  rfl

/-! ## Proof layer: token anatomy -/

/-- Splitting at an explicit dot, the dot-free part coming first. -/
theorem splitDots_seg : ∀ (xs ys : List Char), ('.' : Char) ∉ xs →
    splitDots (xs ++ '.' :: ys) = xs :: splitDots ys
  | [], ys, _ => by
      rw [List.nil_append, splitDots, if_pos rfl]
  | x :: xs, ys, h => by
      have hx : x ≠ '.' := fun he => h (he ▸ List.mem_cons_self x xs)
      have ih := splitDots_seg xs ys (fun hm => h (List.mem_cons_of_mem x hm))
      rw [List.cons_append, splitDots, if_neg hx, ih]

/-- A payload segment never contains a dot. -/
theorem tokenSeg_no_dot (p : Json) : ('.' : Char) ∉ tokenSeg p :=
  b64Chars_no_dot _ (utf8Bytes_lt256 _)

/-- Nor does the constant header segment. -/
theorem headerSeg_no_dot : ('.' : Char) ∉ headerSeg :=
  tokenSeg_no_dot headerJson

/-- Character-level anatomy of an issued token: header segment, dot,
payload segment, dot. -/
theorem createToken_data (p : Json) :
    (HttpVariant.createToken p).data = headerSeg ++ '.' :: (tokenSeg p ++ ['.']) := by
  have hdot : ("." : String).data = ['.'] := rfl
  simp [HttpVariant.createToken, headerSeg, tokenSeg, headerJson, b64Encode,
    String.data_append, hdot, List.append_assoc]

/-- The three split segments of an issued token. -/
theorem splitDots_createToken (p : Json) :
    splitDots (HttpVariant.createToken p).data = [headerSeg, tokenSeg p, []] := by
  rw [createToken_data, splitDots_seg _ _ headerSeg_no_dot,
    splitDots_seg _ _ (tokenSeg_no_dot p)]
  rfl

/-- What the `try`-block of `verifyToken` computes on an issued token:
exactly `JSON.parse` of the serialized payload. -/
theorem verifyTokenBody_createToken (p : Json) :
    HttpVariant.verifyTokenBody (HttpVariant.createToken p)
      = (match jParse (String.mk (jStringify p)) with
        | .ok j => .ok (some j)
        | .error e2 => .error e2) := by
  rw [HttpVariant.verifyTokenBody]
  rw [splitDots_createToken]
  have hlen : ¬ ([headerSeg, tokenSeg p, []].length < 2) := by simp
  rw [if_neg hlen]
  have hget : [headerSeg, tokenSeg p, []].get? 1 = some (tokenSeg p) := rfl
  rw [hget]
  dsimp only
  rw [show tokenSeg p = b64Chars (utf8Bytes (String.mk (jStringify p))) from rfl]
  rw [show b64Decode (b64Chars (utf8Bytes (String.mk (jStringify p))))
      = utf8Bytes (String.mk (jStringify p)) from
    b64Decode_b64Chars _ (utf8Bytes_lt256 _)]
  rw [utf8Str_utf8Bytes]

/-- The issue/verify round trip on a session claim (raw variant). -/
theorem verifyToken_createToken (e : String) :
    HttpVariant.verifyToken (HttpVariant.createToken (claimJson e)) = some (claimJson e) := by
  rw [HttpVariant.verifyToken, verifyTokenBody_createToken, jParse_claim]

/-! ## Proof layer: whitespace congruence -/

theorem dropWs_dropWs : ∀ (xs : List Char), dropWs (dropWs xs) = dropWs xs
  | [] => rfl
  | c :: xs => by
      by_cases h : jsonWs c
      · rw [dropWs, if_pos h, dropWs_dropWs xs]
      · rw [dropWs, if_neg h, dropWs, if_neg h]

theorem dropWs_ws {c : Char} (h : jsonWs c = true) (xs : List Char) :
    dropWs (c :: xs) = dropWs xs := by
  rw [dropWs, if_pos h]

theorem jValue_congr {a b : List Char} (f : Nat) (h : dropWs a = dropWs b) :
    jValue (f + 1) a = jValue (f + 1) b := by
  rw [jValue, h, jValue]

theorem jValue_ws {c : Char} (h : jsonWs c = true) (f : Nat) (xs : List Char) :
    jValue (f + 1) (c :: xs) = jValue (f + 1) xs :=
  jValue_congr f (dropWs_ws h xs)

theorem jFields_ws {c : Char} (h : jsonWs c = true) (f : Nat) (xs : List Char) :
    jFields (f + 1) (c :: xs) = jFields (f + 1) xs := by
  rw [jFields, dropWs_ws h, jFields]

/-- Parsing one `"key": "value"` member of an object rendered by
`JSON.stringify(·, null, 2)`, generic in the key, the value and in
whatever follows the member. -/
theorem jFields_member (f : Nat) (k x : String) (tail : List Char) :
    jFields (f + 2) ('"' :: (k.data.flatMap escSeq
        ++ '"' :: ':' :: ' ' :: '"' :: (x.data.flatMap escSeq ++ '"' :: tail)))
      = (match dropWs tail with
        | ',' :: r5 =>
            (match jFields (f + 1) r5 with
            | some (kvs, r6) => some ((k, Json.str x) :: kvs, r6)
            | none => none)
        | '}' :: r5 => some ([(k, Json.str x)], r5)
        | _ => none) := by
  have sA : jFields (f + 2) ('"' :: (k.data.flatMap escSeq
        ++ '"' :: ':' :: ' ' :: '"' :: (x.data.flatMap escSeq ++ '"' :: tail)))
      = (match strBody [] (k.data.flatMap escSeq
            ++ '"' :: ':' :: ' ' :: '"' :: (x.data.flatMap escSeq ++ '"' :: tail)) with
        | none => none
        | some (key, r2) =>
            match dropWs r2 with
            | ':' :: r3 =>
                (match jValue (f + 1) r3 with
                | none => none
                | some (v, r4) =>
                    match dropWs r4 with
                    | ',' :: r5 =>
                        (match jFields (f + 1) r5 with
                        | some (kvs, r6) => some ((key, v) :: kvs, r6)
                        | none => none)
                    | '}' :: r5 => some ([(key, v)], r5)
                    | _ => none)
            | _ => none) := rfl
  rw [sA, strBody_strLit]
  dsimp only
  have sB : jValue (f + 1) (' ' :: '"' :: (x.data.flatMap escSeq ++ '"' :: tail))
      = some (.str x, tail) := by
    rw [jValue_ws (by decide) f]
    rw [show jValue (f + 1) ('"' :: (x.data.flatMap escSeq ++ '"' :: tail))
        = (match strBody [] (x.data.flatMap escSeq ++ '"' :: tail) with
          | some (s, r2) => some (Json.str s, r2)
          | none => none) from rfl, strBody_strLit]
  show (match jValue (f + 1) (' ' :: '"' :: (x.data.flatMap escSeq ++ '"' :: tail)) with
      | none => none
      | some (v, r4) =>
          match dropWs r4 with
          | ',' :: r5 =>
              (match jFields (f + 1) r5 with
              | some (kvs, r6) => some ((k, v) :: kvs, r6)
              | none => none)
          | '}' :: r5 => some ([(k, v)], r5)
          | _ => none)
    = (match dropWs tail with
      | ',' :: r5 =>
          (match jFields (f + 1) r5 with
          | some (kvs, r6) => some ((k, Json.str x) :: kvs, r6)
          | none => none)
      | '}' :: r5 => some ([(k, Json.str x)], r5)
      | _ => none)
  rw [sB]

/-- Parsing a whole pretty-rendered user record. -/
theorem jValue_recJson (u : UserRec) (f : Nat) (rest : List Char) :
    jValue (f + 5) (jStringify2 1 (recJson u) ++ rest) = some (recJson u, rest) := by
  have hkn : ("name" : String).data.flatMap escSeq = ['n', 'a', 'm', 'e'] := rfl
  have hke : ("email" : String).data.flatMap escSeq = ['e', 'm', 'a', 'i', 'l'] := rfl
  have hkp : ("password" : String).data.flatMap escSeq
      = ['p', 'a', 's', 's', 'w', 'o', 'r', 'd'] := rfl
  have hrender : jStringify2 1 (recJson u) ++ rest
      = '\x7b' :: '\n' :: ' ' :: ' ' :: ' ' :: ' ' :: '"' :: (("name" : String).data.flatMap escSeq ++ '"' :: ':' :: ' ' :: '"' :: (u.name.data.flatMap escSeq ++ '"' :: ',' :: '\n' :: ' ' :: ' ' :: ' ' :: ' ' :: '"' :: (("email" : String).data.flatMap escSeq ++ '"' :: ':' :: ' ' :: '"' :: (u.email.data.flatMap escSeq ++ '"' :: ',' :: '\n' :: ' ' :: ' ' :: ' ' :: ' ' :: '"' :: (("password" : String).data.flatMap escSeq ++ '"' :: ':' :: ' ' :: '"' :: (u.password.data.flatMap escSeq ++ '"' :: '\n' :: ' ' :: ' ' :: '}' :: rest)))))) := by
    simp [recJson, jStringify2, jStringify2Fields, strLit, pad, hkn, hke, hkp,
      List.append_assoc, List.replicate]
  rw [hrender]
  have s1 : jValue (f + 5) ('\x7b' :: '\n' :: ' ' :: ' ' :: ' ' :: ' ' :: '"' :: (("name" : String).data.flatMap escSeq ++ '"' :: ':' :: ' ' :: '"' :: (u.name.data.flatMap escSeq ++ '"' :: ',' :: '\n' :: ' ' :: ' ' :: ' ' :: ' ' :: '"' :: (("email" : String).data.flatMap escSeq ++ '"' :: ':' :: ' ' :: '"' :: (u.email.data.flatMap escSeq ++ '"' :: ',' :: '\n' :: ' ' :: ' ' :: ' ' :: ' ' :: '"' :: (("password" : String).data.flatMap escSeq ++ '"' :: ':' :: ' ' :: '"' :: (u.password.data.flatMap escSeq ++ '"' :: '\n' :: ' ' :: ' ' :: '}' :: rest)))))))
      = (match jFields (f + 4) ('"' :: (("name" : String).data.flatMap escSeq ++ '"' :: ':' :: ' ' :: '"' :: (u.name.data.flatMap escSeq ++ '"' :: ',' :: '\n' :: ' ' :: ' ' :: ' ' :: ' ' :: '"' :: (("email" : String).data.flatMap escSeq ++ '"' :: ':' :: ' ' :: '"' :: (u.email.data.flatMap escSeq ++ '"' :: ',' :: '\n' :: ' ' :: ' ' :: ' ' :: ' ' :: '"' :: (("password" : String).data.flatMap escSeq ++ '"' :: ':' :: ' ' :: '"' :: (u.password.data.flatMap escSeq ++ '"' :: '\n' :: ' ' :: ' ' :: '}' :: rest))))))) with
        | some (kvs, r3) => some (Json.obj kvs, r3)
        | none => none) := rfl
  rw [s1]
  rw [show f + 4 = (f + 2) + 2 from rfl]
  rw [jFields_member (f + 2) ("name") u.name (',' :: '\n' :: ' ' :: ' ' :: ' ' :: ' ' :: '"' :: (("email" : String).data.flatMap escSeq ++ '"' :: ':' :: ' ' :: '"' :: (u.email.data.flatMap escSeq ++ '"' :: ',' :: '\n' :: ' ' :: ' ' :: ' ' :: ' ' :: '"' :: (("password" : String).data.flatMap escSeq ++ '"' :: ':' :: ' ' :: '"' :: (u.password.data.flatMap escSeq ++ '"' :: '\n' :: ' ' :: ' ' :: '}' :: rest)))))]
  show (match (match jFields (f + 2 + 1) ('\n' :: ' ' :: ' ' :: ' ' :: ' ' :: '"' :: (("email" : String).data.flatMap escSeq ++ '"' :: ':' :: ' ' :: '"' :: (u.email.data.flatMap escSeq ++ '"' :: ',' :: '\n' :: ' ' :: ' ' :: ' ' :: ' ' :: '"' :: (("password" : String).data.flatMap escSeq ++ '"' :: ':' :: ' ' :: '"' :: (u.password.data.flatMap escSeq ++ '"' :: '\n' :: ' ' :: ' ' :: '}' :: rest))))) with
        | some (kvs, r6) => some (("name", Json.str u.name) :: kvs, r6)
        | none => none) with
      | some (kvs, r3) => some (Json.obj kvs, r3)
      | none => none)
    = some (recJson u, rest)
  rw [jFields_ws (by decide) (f + 2), jFields_ws (by decide) (f + 2), jFields_ws (by decide) (f + 2),
    jFields_ws (by decide) (f + 2), jFields_ws (by decide) (f + 2)]
  rw [show f + 2 + 1 = (f + 1) + 2 from rfl]
  rw [jFields_member (f + 1) ("email") u.email (',' :: '\n' :: ' ' :: ' ' :: ' ' :: ' ' :: '"' :: (("password" : String).data.flatMap escSeq ++ '"' :: ':' :: ' ' :: '"' :: (u.password.data.flatMap escSeq ++ '"' :: '\n' :: ' ' :: ' ' :: '}' :: rest)))]
  show (match (match (match jFields (f + 1 + 1) ('\n' :: ' ' :: ' ' :: ' ' :: ' ' :: '"' :: (("password" : String).data.flatMap escSeq ++ '"' :: ':' :: ' ' :: '"' :: (u.password.data.flatMap escSeq ++ '"' :: '\n' :: ' ' :: ' ' :: '}' :: rest))) with
          | some (kvs, r6) => some (("email", Json.str u.email) :: kvs, r6)
          | none => none) with
        | some (kvs, r6) => some (("name", Json.str u.name) :: kvs, r6)
        | none => none) with
      | some (kvs, r3) => some (Json.obj kvs, r3)
      | none => none)
    = some (recJson u, rest)
  rw [jFields_ws (by decide) (f + 1), jFields_ws (by decide) (f + 1), jFields_ws (by decide) (f + 1),
    jFields_ws (by decide) (f + 1), jFields_ws (by decide) (f + 1)]
  rw [show f + 1 + 1 = f + 2 from rfl]
  rw [jFields_member f ("password") u.password ('\n' :: ' ' :: ' ' :: '}' :: rest)]
  rfl

/-! ## Proof layer: parsing the pretty-printed user array -/

theorem jStringify2_recJson_eq (u : UserRec) :
    jStringify2 1 (recJson u)
      = '{' :: '\n' :: (jStringify2Fields 1
          [("name", .str u.name), ("email", .str u.email), ("password", .str u.password)]
          ++ '\n' :: (pad 1 ++ ['}'])) := rfl

theorem items_len : ∀ (us : List UserRec) (u : UserRec),
    8 ≤ (jStringify2Items 0 ((u :: us).map recJson)).length
  | [], u => by
      simp [jStringify2Items, jStringify2_recJson_eq, pad, List.replicate]
  | u2 :: us, u => by
      simp [jStringify2Items, jStringify2_recJson_eq, pad, List.replicate]
      omega

theorem items_len_mul : ∀ (us : List UserRec) (u : UserRec),
    8 * us.length + 8 ≤ (jStringify2Items 0 ((u :: us).map recJson)).length
  | [], u => by
      have h := items_len [] u
      simp only [List.length_nil]
      omega
  | u2 :: us, u => by
      have ih := items_len_mul us u2
      rw [List.map_cons, List.map_cons]
      rw [show jStringify2Items 0 (recJson u :: recJson u2 :: us.map recJson)
          = pad 1 ++ (jStringify2 1 (recJson u)
              ++ ',' :: '\n' :: jStringify2Items 0 (recJson u2 :: us.map recJson)) from rfl]
      rw [List.map_cons] at ih
      simp only [List.length_append, List.length_cons, List.length_map, pad,
        List.length_replicate, jStringify2_recJson_eq]
      omega

theorem jItems_users : ∀ (us : List UserRec) (u : UserRec) (f : Nat) (rest input : List Char),
    6 * us.length + 7 ≤ f →
    dropWs input = dropWs (jStringify2Items 0 ((u :: us).map recJson) ++ '\n' :: ']' :: rest) →
    jItems f input = some ((u :: us).map recJson, rest)
  | [], u, f, rest, input, hfuel, hin => by
      obtain ⟨g, rfl⟩ : ∃ g, f = (g + 5) + 2 := ⟨f - 7, by omega⟩
      rw [show jItems (g + 5 + 2) input
          = (match jValue (g + 5 + 1) input with
            | none => none
            | some (v, r) =>
                match dropWs r with
                | ',' :: r2 =>
                    (match jItems (g + 5 + 1) r2 with
                    | some (vs, r3) => some (v :: vs, r3)
                    | none => none)
                | ']' :: r2 => some ([v], r2)
                | _ => none) from rfl]
      have harr : jStringify2Items 0 ([u].map recJson) ++ '\n' :: ']' :: rest
          = ' ' :: ' ' :: (jStringify2 1 (recJson u) ++ '\n' :: ']' :: rest) := by
        simp [jStringify2Items, pad, List.replicate, List.append_assoc]
      rw [harr] at hin
      have hv : jValue (g + 5 + 1) input
          = jValue (g + 5 + 1) (' ' :: ' ' :: (jStringify2 1 (recJson u) ++ '\n' :: ']' :: rest)) :=
        jValue_congr (g + 5) hin
      rw [hv, jValue_ws (by decide) (g + 5), jValue_ws (by decide) (g + 5),
        show g + 5 + 1 = (g + 1) + 5 from rfl, jValue_recJson u (g + 1) ('\n' :: ']' :: rest)]
      rfl
  | u2 :: us, u, f, rest, input, hfuel, hin => by
      obtain ⟨g, rfl⟩ : ∃ g, f = (g + 5) + 2 := ⟨f - 7, by omega⟩
      rw [show jItems (g + 5 + 2) input
          = (match jValue (g + 5 + 1) input with
            | none => none
            | some (v, r) =>
                match dropWs r with
                | ',' :: r2 =>
                    (match jItems (g + 5 + 1) r2 with
                    | some (vs, r3) => some (v :: vs, r3)
                    | none => none)
                | ']' :: r2 => some ([v], r2)
                | _ => none) from rfl]
      have harr : jStringify2Items 0 ((u :: u2 :: us).map recJson) ++ '\n' :: ']' :: rest
          = ' ' :: ' ' :: (jStringify2 1 (recJson u)
              ++ ',' :: '\n' :: (jStringify2Items 0 ((u2 :: us).map recJson) ++ '\n' :: ']' :: rest)) := by
        simp [jStringify2Items, pad, List.replicate, List.append_assoc]
      rw [harr] at hin
      have hv : jValue (g + 5 + 1) input
          = jValue (g + 5 + 1) (' ' :: ' ' :: (jStringify2 1 (recJson u)
              ++ ',' :: '\n' :: (jStringify2Items 0 ((u2 :: us).map recJson) ++ '\n' :: ']' :: rest))) :=
        jValue_congr (g + 5) hin
      rw [hv, jValue_ws (by decide) (g + 5), jValue_ws (by decide) (g + 5),
        show g + 5 + 1 = (g + 1) + 5 from rfl, jValue_recJson u (g + 1)]
      have hrec : jItems (g + 1 + 5)
            ('\n' :: (jStringify2Items 0 ((u2 :: us).map recJson) ++ '\n' :: ']' :: rest))
          = some ((u2 :: us).map recJson, rest) := by
        apply jItems_users us u2 (g + 1 + 5) rest
        · simp only [List.length_cons] at hfuel
          omega
        · rw [dropWs_ws (by decide)]
      show (match jItems (g + 1 + 5)
            ('\n' :: (jStringify2Items 0 (List.map recJson (u2 :: us)) ++ '\n' :: ']' :: rest)) with
        | some (vs, r3) => some (recJson u :: vs, r3)
        | none => none)
      = some (List.map recJson (u :: u2 :: us), rest)
      rw [hrec]
      rfl



theorem jStringify2Items_head (u : UserRec) (us : List UserRec) :
    ∃ t, jStringify2Items 0 ((u :: us).map recJson) = ' ' :: ' ' :: '{' :: t := by
  cases us with
  | nil =>
      refine ⟨'\n' :: (jStringify2Fields 1
        [("name", .str u.name), ("email", .str u.email), ("password", .str u.password)]
        ++ '\n' :: (pad 1 ++ ['}'])), ?_⟩
      simp [jStringify2Items, pad, List.replicate, jStringify2_recJson_eq]
  | cons u2 us2 =>
      refine ⟨'\n' :: (jStringify2Fields 1
        [("name", .str u.name), ("email", .str u.email), ("password", .str u.password)]
        ++ '\n' :: (pad 1 ++ ['}']))
        ++ ',' :: '\n' :: jStringify2Items 0 ((u2 :: us2).map recJson), ?_⟩
      simp [jStringify2Items, pad, List.replicate, jStringify2_recJson_eq, List.append_assoc]

theorem jParse_saveUsers (us : List UserRec) :
    jParse (HttpVariant.saveUsers us) = .ok (usersToJson us) := by
  cases us with
  | nil => rfl
  | cons u us2 =>
      have hchars : (HttpVariant.saveUsers (u :: us2)).data
          = '[' :: '\n' :: (jStringify2Items 0 ((u :: us2).map recJson) ++ '\n' :: ']' :: []) := by
        rw [show (HttpVariant.saveUsers (u :: us2)).data
            = jStringify2 0 (usersToJson (u :: us2)) from rfl]
        simp [usersToJson, jStringify2, pad, List.replicate]
      obtain ⟨t, ht⟩ := jStringify2Items_head u us2
      have hlen : 6 * us2.length + 7
          ≤ ('[' :: '\n' :: (jStringify2Items 0 ((u :: us2).map recJson) ++ '\n' :: ']' :: [])).length := by
        have hil := items_len_mul us2 u
        simp only [List.length_cons, List.length_append]
        omega
      rw [jParse, hchars]
      generalize hF : ('[' :: '\n'
          :: (jStringify2Items 0 ((u :: us2).map recJson) ++ '\n' :: ']' :: [])).length = F
      rw [hF] at hlen
      rw [jValue]
      have hdrop1 : dropWs ('[' :: '\n'
            :: (jStringify2Items 0 ((u :: us2).map recJson) ++ '\n' :: ']' :: []))
          = '[' :: '\n' :: (jStringify2Items 0 ((u :: us2).map recJson) ++ '\n' :: ']' :: []) := rfl
      rw [hdrop1]
      have hassoc : '\n' :: (jStringify2Items 0 ((u :: us2).map recJson) ++ '\n' :: ']' :: [])
          = '\n' :: ' ' :: ' ' :: '\x7b' :: (t ++ '\n' :: ']' :: []) := by
        rw [ht]
        simp [List.append_assoc]
      have hin : dropWs (jStringify2Items 0 ((u :: us2).map recJson) ++ '\n' :: ']' :: [])
          = dropWs ('\x7b' :: (t ++ '\n' :: ']' :: [])) := by
        rw [ht]
        rw [show ((' ' :: ' ' :: '\x7b' :: t : List Char) ++ '\n' :: ']' :: [])
            = ' ' :: ' ' :: '\x7b' :: (t ++ '\n' :: ']' :: []) from by simp]
        rw [dropWs_ws (by decide), dropWs_ws (by decide)]
      have hitems : jItems F ('\x7b' :: (t ++ '\n' :: ']' :: []))
          = some ((u :: us2).map recJson, []) :=
        jItems_users us2 u F [] _ (by omega) hin.symm
      show (match (match dropWs ('\n'
            :: (jStringify2Items 0 ((u :: us2).map recJson) ++ '\n' :: ']' :: [])) with
          | ']' :: r2 => some (Json.arr [], r2)
          | r2 =>
              match jItems F r2 with
              | some (vs, r3) => some (Json.arr vs, r3)
              | none => none) with
        | some (v, r) => if dropWs r = [] then Except.ok v
            else Except.error ("Unexpected non-whitespace character")
        | none => Except.error ("Unexpected token in JSON"))
      = Except.ok (usersToJson (u :: us2))
      rw [hassoc]
      rw [show dropWs ('\n' :: ' ' :: ' ' :: '\x7b' :: (t ++ '\n' :: ']' :: []))
          = '\x7b' :: (t ++ '\n' :: ']' :: []) from rfl]
      show (match (match jItems F ('\x7b' :: (t ++ '\n' :: ']' :: [])) with
          | some (vs, r3) => some (Json.arr vs, r3)
          | none => none) with
        | some (v, r) => if dropWs r = [] then Except.ok v
            else Except.error ("Unexpected non-whitespace character")
        | none => Except.error ("Unexpected token in JSON"))
      = Except.ok (usersToJson (u :: us2))
      rw [hitems]
      rfl

/-! ## Proof layer: record shape decoding -/

/-- Decoding one encoded record gives the record back. -/
theorem userOfJson_recJson (u : UserRec) : userOfJson (recJson u) = some u := rfl

/-- Decoding an encoded record list gives the list back. -/
theorem mapM_userOfJson (us : List UserRec) :
    (us.map recJson).mapM userOfJson = some us := by
  induction us with
  | nil => rfl
  | cons u us ih =>
      rw [List.map_cons, List.mapM_cons, userOfJson_recJson, ih]
      rfl

/-- The record-level view of the persisted array. -/
theorem usersFromJson_usersToJson (us : List UserRec) :
    usersFromJson (usersToJson us) = some us := by
  rw [usersToJson, usersFromJson, mapM_userOfJson]

/-! ## Proof layer: `verifyToken` behavior on arbitrary input -/

/-- The function `verifyToken` is the `try/catch` around its body: an exception gives
`null`, a completed body gives its result. -/
theorem verifyToken_cases (t : String) :
    (∃ e, HttpVariant.verifyTokenBody t = .error e ∧ HttpVariant.verifyToken t = none)
    ∨ (∃ r, HttpVariant.verifyTokenBody t = .ok r ∧ HttpVariant.verifyToken t = r) := by
  cases h : HttpVariant.verifyTokenBody t with
  | error e => exact Or.inl ⟨e, rfl, by rw [HttpVariant.verifyToken, h]⟩
  | ok r => exact Or.inr ⟨r, rfl, by rw [HttpVariant.verifyToken, h]⟩

/-- The issued token, reassembled from its segments. -/
theorem createToken_eq_mk (p : Json) :
    HttpVariant.createToken p = String.mk (headerSeg ++ '.' :: (tokenSeg p ++ ['.'])) := by
  rw [show HttpVariant.createToken p = String.mk (HttpVariant.createToken p).data from rfl,
    createToken_data]

/-- Two claim objects agree exactly when their subjects do. -/
theorem claimJson_inj {e1 e2 : String} : claimJson e1 = claimJson e2 ↔ e1 = e2 := by
  constructor
  · intro h
    injection h with h2
    injection h2 with h3 _
    injection h3 with _ h4
    injection h4
  · intro h
    rw [h]

/-! ## Proof layer: route handler behavior -/

/-- A duplicate email makes registration redirect back, with the store
untouched and no cookie issued. -/
theorem registerPost_dup (users : List UserRec) (n e p : String)
    (h : (users.find? fun u => u.email == e).isSome) :
    HttpVariant.registerPost users n e p = (users, ⟨302, some ("/register"), none⟩) := by
  rw [HttpVariant.registerPost, if_pos h]

/-- A fresh email appends the verbatim record at the end and issues a
token for the email. -/
theorem registerPost_fresh (users : List UserRec) (n e p : String)
    (h : (users.find? fun u => u.email == e) = none) :
    HttpVariant.registerPost users n e p
      = (users ++ [⟨n, e, p⟩],
        ⟨302, some ("/profile"), some (.set (HttpVariant.createToken (claimJson e)))⟩) := by
  rw [HttpVariant.registerPost, if_neg (by rw [h]; simp)]
  rfl

/-- A failed login redirects home, with no cookie and the store as it
was. -/
theorem loginPost_fail (users : List UserRec) (e p : String)
    (h : users.find? (fun u => u.email == e && u.password == p) = none) :
    HttpVariant.loginPost users e p = (users, ⟨302, some ("/"), none⟩) := by
  rw [HttpVariant.loginPost, h]

/-- A `GET /profile` never writes the store. -/
theorem profileGet_fst (users : List UserRec) (c : Option String) :
    (HttpVariant.profileGet users c).1 = users := by
  rw [HttpVariant.profileGet.eq_def]
  cases c with
  | none => rfl
  | some tok =>
      dsimp only
      split
      · rfl
      · split
        · rfl
        · split
          · rfl
          · split <;> rfl

/-- Registration preserves uniqueness of emails in the store. -/
theorem registerPost_unique (users : List UserRec) (n e p : String)
    (h : EmailsUnique users) :
    EmailsUnique (HttpVariant.registerPost users n e p).1 := by
  cases hf : users.find? fun u => u.email == e with
  | some u => rw [registerPost_dup users n e p (by rw [hf]; rfl)]; exact h
  | none =>
      rw [registerPost_fresh users n e p hf]
      have hnotin : e ∉ users.map UserRec.email := by
        intro hmem
        obtain ⟨u, hu, hue⟩ := List.mem_map.mp hmem
        have := List.find?_eq_none.mp hf u hu
        simp [hue] at this
      rw [EmailsUnique, List.map_append]
      rw [List.nodup_append]
      refine ⟨h, by simp, ?_⟩
      intro a ha hb
      simp only [List.map_cons, List.map_nil, List.mem_singleton] at hb
      rw [hb] at ha
      exact hnotin ha

/-- One handled request preserves the email-uniqueness invariant. -/
theorem stepStore_unique (users : List UserRec) (req : Req)
    (h : EmailsUnique users) : EmailsUnique (stepStore users req) := by
  rw [stepStore, HttpVariant.handle]
  split_ifs
  · exact h
  · exact h
  · rw [profileGet_fst]; exact h
  · exact registerPost_unique users req.name req.email req.password h
  · cases hf : users.find? fun u => u.email == req.email && u.password == req.password with
    | none => rw [loginPost_fail users req.email req.password hf]; exact h
    | some u => rw [HttpVariant.loginPost, hf]; exact h
  · exact h
  · exact h

/-- A whole request sequence preserves the invariant. -/
theorem runStore_unique (reqs : List Req) (users : List UserRec)
    (h : EmailsUnique users) : EmailsUnique (runStore users reqs) := by
  induction reqs generalizing users with
  | nil => exact h
  | cons r rs ih => exact ih (stepStore users r) (stepStore_unique users r h)

/-! ## The claims -/

/-- C1: the claim states that `verifyToken` returns invalid (`null`) for
every modification of an issued token's payload segment that changes the
decoded subject.  This is false: the token carries no signature.  Here
the token issued for `a@x.com`, with its payload segment swapped for one
encoding `evil@x.com` (same header segment, same three-segment layout),
verifies to the altered claim instead of `null`. -/
theorem C1_counterexample :
    HttpVariant.verifyToken
        (String.mk (headerSeg ++ '.' :: (tokenSeg (claimJson ("evil@x.com")) ++ ['.'])))
      = some (claimJson ("evil@x.com"))
    ∧ (splitDots (String.mk (headerSeg
        ++ '.' :: (tokenSeg (claimJson ("evil@x.com")) ++ ['.']))).data).get? 0
      = (splitDots (HttpVariant.createToken (claimJson ("a@x.com"))).data).get? 0
    ∧ claimJson ("evil@x.com") ≠ claimJson ("a@x.com")
    ∧ HttpVariant.verifyToken
        (String.mk (headerSeg ++ '.' :: (tokenSeg (claimJson ("evil@x.com")) ++ ['.'])))
      ≠ none := by
  have h1 : HttpVariant.verifyToken
      (String.mk (headerSeg ++ '.' :: (tokenSeg (claimJson ("evil@x.com")) ++ ['.'])))
      = some (claimJson ("evil@x.com")) := by
    rw [← createToken_eq_mk]
    exact verifyToken_createToken ("evil@x.com")
  refine ⟨h1, ?_, ?_, ?_⟩
  · rw [← createToken_eq_mk, splitDots_createToken, splitDots_createToken]
    rfl
  · intro h
    exact absurd (claimJson_inj.mp h) (by decide)
  · rw [h1]
    simp

/-- C1 (amended): tampering is not detected.  An issued token splits
into header segment, payload segment and an empty trailer; replacing the
payload segment with one encoding any other subject yields a token that
`verifyToken` accepts, returning the altered claim — never `null`.  The
two claims differ whenever the subjects do. -/
theorem C1_tampered_claim_returned : ∀ e1 e2 : String,
    splitDots (HttpVariant.createToken (claimJson e1)).data
      = [headerSeg, tokenSeg (claimJson e1), []]
    ∧ HttpVariant.verifyToken
        (String.mk (headerSeg ++ '.' :: (tokenSeg (claimJson e2) ++ ['.'])))
      = some (claimJson e2)
    ∧ (e1 ≠ e2 → claimJson e2 ≠ claimJson e1) := by
  intro e1 e2
  refine ⟨splitDots_createToken _, ?_, ?_⟩
  · rw [← createToken_eq_mk]
    exact verifyToken_createToken e2
  · intro hne h
    exact hne (claimJson_inj.mp h).symm

/-- C1 (witness): the amended theorem at the subjects `a@x.com` and
`evil@x.com`, its inner hypothesis discharged. -/
theorem C1_tampered_claim_returned_witness :
    claimJson ("evil@x.com") ≠ claimJson ("a@x.com") :=
  (C1_tampered_claim_returned ("a@x.com") ("evil@x.com")).2.2 (by decide)

/-- C2: the issue/verify round trip.  For every session claim
`{ sub: email }`, verifying the token `createToken` issued for it gives
back exactly that claim, in both variants. -/
theorem C2_round_trip : ∀ email : String,
    HttpVariant.verifyToken (HttpVariant.createToken (claimJson email))
      = some (claimJson email)
    ∧ ExpressVariant.verifyToken (ExpressVariant.createToken (claimJson email))
      = some (claimJson email) := by
  intro email
  exact ⟨verifyToken_createToken email, verifyToken_createToken email⟩

/-- C4: `verifyToken` is total and never lets an exception escape: the
`try`-block either completes (and its result, a claim or the explicit
`null`, is returned unchanged) or throws (and the `catch` turns the
exception into `null`). -/
theorem C4_never_throws : ∀ t : String,
    ((∃ e, HttpVariant.verifyTokenBody t = .error e ∧ HttpVariant.verifyToken t = none)
      ∨ (∃ r, HttpVariant.verifyTokenBody t = .ok r ∧ HttpVariant.verifyToken t = r))
    ∧ ((∃ e, ExpressVariant.verifyTokenBody t = .error e ∧ ExpressVariant.verifyToken t = none)
      ∨ (∃ r, ExpressVariant.verifyTokenBody t = .ok r ∧ ExpressVariant.verifyToken t = r)) := by
  intro t
  exact ⟨verifyToken_cases t, verifyToken_cases t⟩

/-- C5: the claim speaks of "at most one user record per normalized
email", and the spec's recommended normalization (trim + lowercase)
makes it false on the code: the handlers compare emails with `===`, no
normalization.  Starting from a store whose normalized emails are
unique, registering `a@x.com` alongside the stored `A@x.com` is
accepted — redirect to `/profile`, record appended — leaving two records
with the same normalized email. -/
theorem C5_counterexample :
    EmailsUnique [⟨"Ann", "A@x.com", "p"⟩]
    ∧ (List.map (fun u => normalizeEmail u.email)
        [(⟨"Ann", "A@x.com", "p"⟩ : UserRec)]).Nodup
    ∧ normalizeEmail ("A@x.com") = normalizeEmail ("a@x.com")
    ∧ (HttpVariant.registerPost [⟨"Ann", "A@x.com", "p"⟩] "Bob" ("a@x.com") "q").2
        = ⟨302, some ("/profile"),
          some (.set (HttpVariant.createToken (claimJson ("a@x.com"))))⟩
    ∧ (HttpVariant.registerPost [⟨"Ann", "A@x.com", "p"⟩] "Bob" ("a@x.com") "q").1
        = [⟨"Ann", "A@x.com", "p"⟩, ⟨"Bob", "a@x.com", "q"⟩]
    ∧ ¬ (List.map (fun u => normalizeEmail u.email)
        (HttpVariant.registerPost [⟨"Ann", "A@x.com", "p"⟩] "Bob" ("a@x.com") "q").1).Nodup := by
  have hfresh := registerPost_fresh [⟨"Ann", "A@x.com", "p"⟩] "Bob" ("a@x.com") "q" (by decide)
  refine ⟨by unfold EmailsUnique; decide, by decide, by decide, ?_, ?_, ?_⟩
  · rw [hfresh]
  · rw [hfresh]
    rfl
  · rw [hfresh]
    decide

/-- C5 (amended): with the code's actual key policy — the exact email
string — the invariant does hold: every request sequence preserves
uniqueness of stored emails, and a register whose exact email is already
present returns the already-exists redirect without touching the store,
in both variants. -/
theorem C5_exact_email_invariant :
    (∀ (users : List UserRec) (reqs : List Req),
      EmailsUnique users → EmailsUnique (runStore users reqs))
    ∧ (∀ (users : List UserRec) (n e p : String),
      (users.find? fun u => u.email == e).isSome →
      HttpVariant.registerPost users n e p = (users, ⟨302, some ("/register"), none⟩)
      ∧ ExpressVariant.registerPost users n e p = (users, ⟨302, some ("/register"), none⟩)) := by
  refine ⟨fun users reqs h => runStore_unique reqs users h, fun users n e p h => ⟨?_, ?_⟩⟩
  · exact registerPost_dup users n e p h
  · exact registerPost_dup users n e p h

/-- C5 (witness): the amended theorem at a one-request sequence and at a
duplicate registration, hypotheses discharged on a concrete store. -/
theorem C5_exact_email_invariant_witness :
    EmailsUnique (runStore [⟨"Ann", "a@x.com", "p"⟩]
      [⟨.post, "/register", none, "Bob", "a@x.com", "q"⟩])
    ∧ HttpVariant.registerPost [⟨"Ann", "a@x.com", "p"⟩] "Bob" ("a@x.com") "q"
        = ([⟨"Ann", "a@x.com", "p"⟩], ⟨302, some ("/register"), none⟩) :=
  ⟨C5_exact_email_invariant.1 [⟨"Ann", "a@x.com", "p"⟩]
      [⟨.post, "/register", none, "Bob", "a@x.com", "q"⟩] (by unfold EmailsUnique; decide),
    (C5_exact_email_invariant.2 [⟨"Ann", "a@x.com", "p"⟩] "Bob" ("a@x.com") "q" (by decide)).1⟩

/-- C6: a `POST /login` whose email matches no record, or whose password
does not match, redirects to `/` with no `Set-Cookie`, and the store is
returned unchanged — in both variants. -/
theorem C6_failed_login : ∀ (users : List UserRec) (tok : Option String) (n e p : String),
    users.find? (fun u => u.email == e && u.password == p) = none →
    HttpVariant.handle ⟨.post, "/login", tok, n, e, p⟩ users
      = (users, ⟨302, some ("/"), none⟩)
    ∧ ExpressVariant.handle ⟨.post, "/login", tok, n, e, p⟩ users
      = (users, ⟨302, some ("/"), none⟩) := by
  intro users tok n e p h
  constructor
  · rw [HttpVariant.handle,
      if_neg (fun hc => absurd hc.1 (by decide : ¬ (Method.post = Method.get))),
      if_neg (fun hc => absurd hc.1 (by decide : ¬ (Method.post = Method.get))),
      if_neg (fun hc => absurd hc.1 (by decide : ¬ (Method.post = Method.get))),
      if_neg (fun hc => absurd hc.2 (by decide : ¬ (("/login" : String) = "/register"))),
      if_pos ⟨rfl, rfl⟩]
    exact loginPost_fail users e p h
  · rw [ExpressVariant.handle,
      if_neg (fun hc => absurd hc.1 (by decide : ¬ (Method.post = Method.get))),
      if_neg (fun hc => absurd hc.1 (by decide : ¬ (Method.post = Method.get))),
      if_neg (fun hc => absurd hc.1 (by decide : ¬ (Method.post = Method.get))),
      if_neg (fun hc => absurd hc.2
        (by decide : ¬ (expressMatch ("/register") ("/login") = true))),
      if_pos ⟨rfl, (by decide : expressMatch ("/login") ("/login") = true)⟩]
    exact loginPost_fail users e p h

/-- C6 (witness): a login with a wrong password against a concrete
store, the hypothesis discharged by computation. -/
theorem C6_failed_login_witness :
    HttpVariant.handle ⟨.post, "/login", none, "", "a@x.com", "wrong"⟩
      [⟨"Ann", "a@x.com", "p"⟩] = ([⟨"Ann", "a@x.com", "p"⟩], ⟨302, some ("/"), none⟩) :=
  (C6_failed_login [⟨"Ann", "a@x.com", "p"⟩] none ("") ("a@x.com") "wrong" (by decide)).1

/-- C8: with no persisted file, `readUsers` returns the empty array —
the empty sequence of user records — rather than an error, in both
variants. -/
theorem C8_absent_file :
    HttpVariant.readUsers none = .ok (Json.arr [])
    ∧ ExpressVariant.readUsers none = .ok (Json.arr [])
    ∧ usersFromJson (Json.arr []) = some [] :=
  ⟨rfl, rfl, rfl⟩

/-- C9: persistence round trip.  Reading the file `saveUsers` just wrote
parses back to exactly the serialized user array, whose decoded record
sequence is the one written — for every record sequence, in both
variants. -/
theorem C9_save_read_round_trip : ∀ us : List UserRec,
    HttpVariant.readUsers (some (HttpVariant.saveUsers us)) = .ok (usersToJson us)
    ∧ usersFromJson (usersToJson us) = some us
    ∧ ExpressVariant.readUsers (some (ExpressVariant.saveUsers us)) = .ok (usersToJson us) := by
  intro us
  exact ⟨jParse_saveUsers us, usersFromJson_usersToJson us, jParse_saveUsers us⟩

/-- C10: a successful registration is a pure append: the new record is
built verbatim from the submitted fields and placed last, every prior
record unchanged and in place, and the response issues the fresh token
cookie and redirects to `/profile` — in both variants. -/
theorem C10_register_appends : ∀ (users : List UserRec) (tok : Option String) (n e p : String),
    (users.find? fun u => u.email == e) = none →
    HttpVariant.handle ⟨.post, "/register", tok, n, e, p⟩ users
      = (users ++ [⟨n, e, p⟩],
        ⟨302, some ("/profile"), some (.set (HttpVariant.createToken (claimJson e)))⟩)
    ∧ ExpressVariant.handle ⟨.post, "/register", tok, n, e, p⟩ users
      = (users ++ [⟨n, e, p⟩],
        ⟨302, some ("/profile"), some (.set (ExpressVariant.createToken (claimJson e)))⟩) := by
  intro users tok n e p h
  constructor
  · rw [HttpVariant.handle,
      if_neg (fun hc => absurd hc.1 (by decide : ¬ (Method.post = Method.get))),
      if_neg (fun hc => absurd hc.1 (by decide : ¬ (Method.post = Method.get))),
      if_neg (fun hc => absurd hc.1 (by decide : ¬ (Method.post = Method.get))),
      if_pos ⟨rfl, rfl⟩]
    exact registerPost_fresh users n e p h
  · rw [ExpressVariant.handle,
      if_neg (fun hc => absurd hc.1 (by decide : ¬ (Method.post = Method.get))),
      if_neg (fun hc => absurd hc.1 (by decide : ¬ (Method.post = Method.get))),
      if_neg (fun hc => absurd hc.1 (by decide : ¬ (Method.post = Method.get))),
      if_pos ⟨rfl, (by decide : expressMatch ("/register") ("/register") = true)⟩]
    exact registerPost_fresh users n e p h

/-- C10 (witness): a fresh registration against a concrete store. -/
theorem C10_register_appends_witness :
    HttpVariant.handle ⟨.post, "/register", none, "Bob", "b@x.com", "q"⟩
      [⟨"Ann", "a@x.com", "p"⟩]
      = ([⟨"Ann", "a@x.com", "p"⟩, ⟨"Bob", "b@x.com", "q"⟩],
        ⟨302, some ("/profile"),
          some (.set (HttpVariant.createToken (claimJson ("b@x.com"))))⟩) :=
  (C10_register_appends [⟨"Ann", "a@x.com", "p"⟩] none ("Bob") ("b@x.com") "q" (by decide)).1
